import Mathlib

/-!
Shallow embedding of the cell-automaton engine (src/lib.rs, src/drivers.rs,
src/rulesets.rs).

The grid engine stores cells in a flat `List` in row-major order together
with the grid width.  Rust's fallible vector indexing (`self.data[i]`,
which panics when `i` is out of bounds, and usize subtraction, which
panics on underflow in debug builds and produces a huge out-of-bounds
index in release builds) is modelled by computing candidate indices in
`Int` and reading through an `Option`: a `none` result stands for a Rust
panic.
-/

/-- The 3x3 neighborhood matrix `[[tl, t, tr], [l, m, r], [bl, b, br]]`
passed to `RuleSet::step`, as nine named slots in row-major order. -/
structure FieldMatrix (C : Type) where
  tl : C
  t : C
  tr : C
  l : C
  m : C
  r : C
  bl : C
  b : C
  br : C
deriving DecidableEq

/-- A rule set: the cell type's default value (Rust's `Default::default()`
for `R::Cell`) together with the pure transition function on a 3x3
neighborhood (`RuleSet::step`). -/
structure RuleSet (C : Type) where
  default : C
  step : FieldMatrix C → C

/-- Boundary classification of a cell (enum `Adjacency` in drivers.rs). -/
inductive Adjacency where
  | Top
  | Right
  | Bottom
  | Left
  | TopRight
  | TopLeft
  | BottomRight
  | BottomLeft
  | None
deriving DecidableEq

/-- The grid engine `Driver<R>`: flat cell storage plus the width. -/
structure Driver (C : Type) where
  data : List C
  width : Nat
deriving DecidableEq

namespace Driver

/-- `Driver::new_with`: a `width * height` grid entirely filled with the
rule's default value. -/
def new_with (R : RuleSet C) (width height : Nat) : Driver C :=
  ⟨List.replicate (width * height) R.default, width⟩

/-- `Driver::adjacency`: classify the cell at flat index `idx` by its
position relative to the borders, with `x = idx % width`,
`y = idx / width`, and the bottom row at `y = data.len() / width - 1`.
(The caller guards `width = 0`, where Rust's `idx % width` panics.) -/
def adjacency (g : Driver C) (idx : Nat) : Adjacency :=
  let x := idx % g.width
  let y := idx / g.width
  if y = 0 then
    if x = 0 then Adjacency.TopLeft
    else if x = g.width - 1 then Adjacency.TopRight
    else Adjacency.Top
  else if y = g.data.length / g.width - 1 then
    if x = 0 then Adjacency.BottomLeft
    else if x = g.width - 1 then Adjacency.BottomRight
    else Adjacency.Bottom
  else
    if x = 0 then Adjacency.Left
    else if x = g.width - 1 then Adjacency.Right
    else Adjacency.None

/-- Read the storage at a signed candidate index: `none` models the Rust
panic on a negative (underflowed) or out-of-bounds index. -/
def readAt (g : Driver C) (i : Int) : Option C :=
  if i < 0 then none else g.data.get? i.toNat

/-- `Driver::get_field_matrix`: extract the 3x3 neighborhood of the cell
at flat index `idx`, consulting the adjacency classification slot by slot
exactly as the source's nine `match` expressions do; slots whose match arm
is listed get the default value, all others read the storage at the
arithmetic index. -/
def get_field_matrix (R : RuleSet C) (g : Driver C) (idx : Nat) :
    Option (FieldMatrix C) :=
  if g.width = 0 then none else
  let adj := g.adjacency idx
  let w : Int := g.width
  let i : Int := idx
  do
  let tl ← match adj with
    | .Top | .TopLeft | .TopRight | .Left => some R.default
    | _ => g.readAt (i - w - 1)
  let t ← match adj with
    | .Top | .TopLeft | .TopRight => some R.default
    | _ => g.readAt (i - w)
  let tr ← match adj with
    | .Top | .TopLeft | .TopRight | .Right => some R.default
    | _ => g.readAt (i - w + 1)
  let l ← match adj with
    | .TopLeft | .BottomLeft | .Left => some R.default
    | _ => g.readAt (i - 1)
  let c ← g.readAt i
  let r ← match adj with
    | .TopRight | .BottomRight | .Right => some R.default
    | _ => g.readAt (i + 1)
  let bl ← match adj with
    | .Bottom | .BottomLeft | .BottomRight | .Left => some R.default
    | _ => g.readAt (i + w - 1)
  let b ← match adj with
    | .Bottom | .BottomLeft | .BottomRight => some R.default
    | _ => g.readAt (i + w)
  let br ← match adj with
    | .Bottom | .BottomLeft | .BottomRight | .Right => some R.default
    | _ => g.readAt (i + w + 1)
  pure ⟨tl, t, tr, l, c, r, bl, b, br⟩

/-- `Driver::get`: read the cell at `(x, y)` through the flat index
`y * width + x`; `none` models the Rust panic on an out-of-bounds index. -/
def get (g : Driver C) (x y : Nat) : Option C :=
  g.data.get? (y * g.width + x)

/-- `Driver::set`: overwrite the cell at `(x, y)` through the flat index
`y * width + x`; `none` models the Rust panic on an out-of-bounds index. -/
def set (g : Driver C) (x y : Nat) (v : C) : Option (Driver C) :=
  if y * g.width + x < g.data.length then
    some ⟨g.data.set (y * g.width + x) v, g.width⟩
  else none

/-- `CellWorld::get_cell` for `Driver`: delegates to `get`. -/
def get_cell (g : Driver C) (x y : Nat) : Option C :=
  g.get x y

/-- `CellWorld::set_cell` for `Driver`: delegates to `set`. -/
def set_cell (g : Driver C) (x y : Nat) (v : C) : Option (Driver C) :=
  g.set x y v

/-- The body of `Driver::step`'s sweep: map the rule over the neighborhood
of every index in the list, reading only from the pre-step grid `g`; the
whole sweep fails (`none`, a panic) as soon as one extraction fails. -/
def stepCells (R : RuleSet C) (g : Driver C) : List Nat → Option (List C)
  | [] => some []
  | idx :: rest =>
    match get_field_matrix R g idx, stepCells R g rest with
    | some fm, some l => some (R.step fm :: l)
    | _, _ => none

/-- `Driver::step` (sequential variant): collect the rule's output over
indices `0 .. data.len()` into a fresh storage and install it, keeping
the width. -/
def step (R : RuleSet C) (g : Driver C) : Option (Driver C) :=
  match stepCells R g (List.range g.data.length) with
  | some l => some ⟨l, g.width⟩
  | none => none

/-- `CellWorld::step_many`'s default implementation: a loop performing
`step` exactly `n` times in order (a panic anywhere aborts). -/
def step_many (R : RuleSet C) (g : Driver C) : Nat → Option (Driver C)
  | 0 => some g
  | n + 1 =>
    match step R g with
    | some g1 => step_many R g1 n
    | none => none

end Driver

/-- The cell type of the Game of Life rule set (`BinaryCell`). -/
inductive BinaryCell where
  | Live
  | Dead
deriving DecidableEq

/-- `GameOfLife`: `Default::default()` is `Dead`; the transition counts
the live cells among the eight neighbors and applies Conway's rule. -/
def GameOfLife : RuleSet BinaryCell where
  default := BinaryCell.Dead
  step := fun fm =>
    match fm with
    | ⟨tl, t, tr, l, m, r, bl, b, br⟩ =>
      let live_neighbors :=
        ([tl, t, tr, l, r, bl, b, br].filter (fun x => x = BinaryCell.Live)).length
      match m, live_neighbors with
      | _, 3 => BinaryCell.Live
      | BinaryCell.Live, 2 => BinaryCell.Live
      | _, _ => BinaryCell.Dead

/-- Shorthand for the live cell. -/
def cL : BinaryCell := BinaryCell.Live

/-- Shorthand for the dead cell (the Game of Life default). -/
def cD : BinaryCell := BinaryCell.Dead

/-- The 3x3 vertical blinker: live cells exactly at (1,0), (1,1), (1,2). -/
def gVert : Driver BinaryCell :=
  ⟨[cD, cL, cD, cD, cL, cD, cD, cL, cD], 3⟩

/-- The 3x3 horizontal blinker: live cells exactly at (0,1), (1,1), (2,1). -/
def gHoriz : Driver BinaryCell :=
  ⟨[cD, cD, cD, cL, cL, cL, cD, cD, cD], 3⟩

/-- The 2x2 grid with all four cells live (the spec's still-life block). -/
def gBlock : Driver BinaryCell :=
  ⟨[cL, cL, cL, cL], 2⟩

/-- A 3x3 grid whose only live cell is (2,0), the top-right corner. -/
def gCorner : Driver BinaryCell :=
  ⟨[cD, cD, cL, cD, cD, cD, cD, cD, cD], 3⟩

/-- Unfolding lemma for `step_many` when the first step succeeds. -/
theorem step_many_some (R : RuleSet C) (g g1 : Driver C)
    (h : Driver.step R g = some g1) (n : Nat) :
    Driver.step_many R g (n + 1) = Driver.step_many R g1 n := by
  simp [Driver.step_many, h]

/-- Two steps bring the vertical blinker back to itself. -/
theorem blinker_period (k : Nat) :
    Driver.step_many GameOfLife gVert (k + 2) =
      Driver.step_many GameOfLife gVert k := by
  have h1 : Driver.step GameOfLife gVert = some gHoriz := by decide
  have h2 : Driver.step GameOfLife gHoriz = some gVert := by decide
  show Driver.step_many GameOfLife gVert (k + 1 + 1) = _
  rw [step_many_some _ _ _ h1 (k + 1), step_many_some _ _ _ h2 k]

/-- Claim C1: refuted at a corner. On the 3x3 grid whose only live cell is
(2,0), the neighborhood of the top-left corner cell (0,0) has its
bottom-left slot equal to `Live`: that slot's position (-1, 1) is outside
the grid, yet it is not filled with the default value `Dead`; the code
copies the in-grid cell (2,0) instead of the default. -/
theorem corner_neighborhood_not_default :
    ((Driver.new_with GameOfLife 3 3).set 2 0 cL = some gCorner)
    ∧ Driver.get_field_matrix GameOfLife gCorner 0 =
        some ⟨cD, cD, cD, cD, cD, cD, cL, cD, cD⟩
    ∧ cL ≠ GameOfLife.default := by
  exact ⟨by decide, by decide, by decide⟩

/-- Claim C2: refuted. The 2x2 all-live grid is constructed through the
public API with positive width and height, yet extracting the neighborhood
of the in-bounds cell at index 1 reads storage index 4 (length 4) and
panics, so `step` panics. -/
theorem step_2x2_panics :
    (((Driver.new_with GameOfLife 2 2).set 0 0 cL).bind (fun g1 =>
      (g1.set 1 0 cL).bind (fun g2 =>
        (g2.set 0 1 cL).bind (fun g3 => g3.set 1 1 cL))) = some gBlock)
    ∧ Driver.get_field_matrix GameOfLife gBlock 1 = none
    ∧ Driver.step GameOfLife gBlock = none := by
  exact ⟨by decide, by decide, by decide⟩

/-- Claim C3: refuted for n = 1 step. On the 2x2 all-live grid, zero steps
leave all four cells live, but the first step panics (out-of-bounds read
during neighborhood extraction) instead of preserving the still life. -/
theorem block_still_life_panics :
    Driver.step_many GameOfLife gBlock 0 = some gBlock
    ∧ gBlock.get_cell 0 0 = some cL
    ∧ gBlock.get_cell 1 0 = some cL
    ∧ gBlock.get_cell 0 1 = some cL
    ∧ gBlock.get_cell 1 1 = some cL
    ∧ Driver.step_many GameOfLife gBlock 1 = none := by
  exact ⟨by decide, by decide, by decide, by decide, by decide, by decide⟩

/-- Claim C4: confirmed. The 3x3 grid seeded through the API with live
cells exactly at (1,0), (1,1), (1,2) steps to the horizontal line with
live cells exactly at (0,1), (1,1), (2,1), steps back to the vertical
line, and oscillates with period 2 for every n. -/
theorem gol_blinker_oscillates :
    (((Driver.new_with GameOfLife 3 3).set 1 0 cL).bind (fun g1 =>
      (g1.set 1 1 cL).bind (fun g2 => g2.set 1 2 cL)) = some gVert)
    ∧ Driver.step GameOfLife gVert = some gHoriz
    ∧ Driver.step GameOfLife gHoriz = some gVert
    ∧ ∀ n : Nat,
        Driver.step_many GameOfLife gVert (2 * n) = some gVert
        ∧ Driver.step_many GameOfLife gVert (2 * n + 1) = some gHoriz := by
  refine ⟨by decide, by decide, by decide, ?_⟩
  intro n
  induction n with
  | zero => exact ⟨by decide, by decide⟩
  | succ n ih =>
    constructor
    · have e1 : 2 * (n + 1) = 2 * n + 2 := by ring
      rw [e1, blinker_period]
      exact ih.1
    · have e2 : 2 * (n + 1) + 1 = 2 * n + 1 + 2 := by ring
      rw [e2, blinker_period]
      exact ih.2

/-- A successful sweep produces one output cell per index. -/
theorem stepCells_length (R : RuleSet C) (g : Driver C) :
    ∀ (is : List Nat) (l : List C),
      Driver.stepCells R g is = some l → l.length = is.length := by
  intro is
  induction is with
  | nil =>
    intro l h
    simp only [Driver.stepCells] at h
    cases h
    rfl
  | cons i rest ih =>
    intro l h
    simp only [Driver.stepCells] at h
    split at h
    · cases h
      simp only [List.length_cons]
      exact congrArg Nat.succ (ih _ (by assumption))
    · cases h

/-- Pointwise description of a successful sweep: the k-th output is the
rule applied to the neighborhood of the k-th index, extracted from the
unmodified grid `g`. -/
theorem stepCells_get? (R : RuleSet C) (g : Driver C) :
    ∀ (is : List Nat) (l : List C), Driver.stepCells R g is = some l →
      ∀ k, l.get? k =
        (is.get? k).bind (fun i => (Driver.get_field_matrix R g i).map R.step) := by
  intro is
  induction is with
  | nil =>
    intro l h k
    simp only [Driver.stepCells] at h
    cases h
    simp
  | cons i rest ih =>
    intro l h k
    simp only [Driver.stepCells] at h
    split at h
    · cases h
      cases k with
      | zero =>
        rename_i fm l2 hfm hrest
        simp [hfm]
      | succ k =>
        rename_i fm l2 hfm hrest
        simpa using ih _ hrest k
    · cases h

/-- Claim C5: confirmed. Whenever `step` succeeds, the new value at every
in-bounds index `i` is the rule's transition function applied to the 3x3
neighborhood extracted from the pre-step storage `g`; no output depends on
values written during the same sweep. -/
theorem step_reads_prestep (R : RuleSet C) (g g1 : Driver C)
    (h : Driver.step R g = some g1) :
    ∀ i, i < g.data.length →
      g1.data.get? i = (Driver.get_field_matrix R g i).map R.step := by
  intro i hi
  simp only [Driver.step] at h
  split at h
  · rename_i l hsc
    cases h
    rw [stepCells_get? R g _ _ hsc i, List.get?_range hi]
    rfl
  · cases h

/-- Concrete instantiation of `step_reads_prestep` at the blinker, index 4. -/
theorem step_reads_prestep_witness :
    Driver.step GameOfLife gVert = some gHoriz
    ∧ 4 < gVert.data.length
    ∧ gHoriz.data.get? 4 =
        (Driver.get_field_matrix GameOfLife gVert 4).map GameOfLife.step :=
  ⟨by decide, by decide,
    step_reads_prestep GameOfLife gVert gHoriz (by decide) 4 (by decide)⟩

/-- Iterating the bind of `step` over an already-failed state stays failed. -/
theorem iterate_bind_none (R : RuleSet C) (n : Nat) :
    (fun s => Option.bind s (Driver.step R))^[n] none = none := by
  induction n with
  | zero => rfl
  | succ n ih =>
    rw [Function.iterate_succ_apply]
    simpa using ih

/-- Claim C6: confirmed. The `step_many` loop equals `n` sequential calls
to `step`: it is the n-fold iteration of binding `step` starting from the
current state, for every grid and every n. -/
theorem step_many_eq_iterate (R : RuleSet C) (g : Driver C) (n : Nat) :
    Driver.step_many R g n =
      (fun s => Option.bind s (Driver.step R))^[n] (some g) := by
  induction n generalizing g with
  | zero => rfl
  | succ n ih =>
    rw [Function.iterate_succ_apply]
    have hb : (some g).bind (Driver.step R) = Driver.step R g := rfl
    rw [hb]
    cases hs : Driver.step R g with
    | none =>
      simp only [Driver.step_many, hs]
      exact (iterate_bind_none R n).symm
    | some g2 =>
      simp only [Driver.step_many, hs]
      exact ih g2

/-- A successful `step` keeps the width and the storage length. -/
theorem step_shape (R : RuleSet C) (g g1 : Driver C)
    (h : Driver.step R g = some g1) :
    g1.width = g.width ∧ g1.data.length = g.data.length := by
  simp only [Driver.step] at h
  split at h
  · rename_i l hsc
    cases h
    exact ⟨rfl, by rw [stepCells_length R g _ _ hsc, List.length_range]⟩
  · cases h

/-- A successful `step_many` keeps the width and the storage length. -/
theorem step_many_shape (R : RuleSet C) :
    ∀ (g : Driver C) (n : Nat) (g1 : Driver C),
      Driver.step_many R g n = some g1 →
      g1.width = g.width ∧ g1.data.length = g.data.length := by
  intro g n
  induction n generalizing g with
  | zero =>
    intro g1 h
    simp only [Driver.step_many] at h
    cases h
    exact ⟨rfl, rfl⟩
  | succ n ih =>
    intro g1 h
    simp only [Driver.step_many] at h
    split at h
    · rename_i g2 hs
      obtain ⟨hw1, hl1⟩ := ih g2 g1 h
      obtain ⟨hw2, hl2⟩ := step_shape R g g2 hs
      exact ⟨hw1.trans hw2, hl1.trans hl2⟩
    · cases h

/-- Claim C7: confirmed. Construction yields width `w` and storage length
`w * h` (a multiple of the width), and `set_cell`, `step` and `step_many`
each keep the width field and the storage length exactly unchanged, so the
storage length stays the same exact multiple of the width and the implicit
height `data.length / width` is unchanged by stepping. -/
theorem shape_invariants (R : RuleSet C) (g : Driver C) :
    (∀ w h, (Driver.new_with R w h).width = w
      ∧ (Driver.new_with R w h).data.length = w * h)
    ∧ (∀ x y v g1, Driver.set_cell g x y v = some g1 →
        g1.width = g.width ∧ g1.data.length = g.data.length)
    ∧ (∀ g1, Driver.step R g = some g1 →
        g1.width = g.width ∧ g1.data.length = g.data.length)
    ∧ (∀ n g1, Driver.step_many R g n = some g1 →
        g1.width = g.width ∧ g1.data.length = g.data.length) := by
  refine ⟨?_, ?_, ?_, ?_⟩
  · intro w h
    exact ⟨rfl, by simp [Driver.new_with]⟩
  · intro x y v g1 h
    simp only [Driver.set_cell, Driver.set] at h
    split at h
    · cases h
      exact ⟨rfl, by simp⟩
    · cases h
  · exact fun g1 h => step_shape R g g1 h
  · exact fun n g1 h => step_many_shape R g n g1 h

/-- The empty 3x3 grid (all cells the default value). -/
def gDead : Driver BinaryCell := Driver.new_with GameOfLife 3 3

/-- The empty 3x3 grid after writing `Live` at (0,0). -/
def gDeadSet : Driver BinaryCell :=
  ⟨[cL, cD, cD, cD, cD, cD, cD, cD, cD], 3⟩

/-- Concrete instantiation of `shape_invariants` on the empty 3x3 grid. -/
theorem shape_invariants_witness :
    (Driver.set_cell gDead 0 0 cL = some gDeadSet
      ∧ gDeadSet.width = gDead.width
      ∧ gDeadSet.data.length = gDead.data.length)
    ∧ (Driver.step GameOfLife gDead = some gDead
      ∧ gDead.width = gDead.width ∧ gDead.data.length = gDead.data.length)
    ∧ (Driver.step_many GameOfLife gDead 2 = some gDead
      ∧ gDead.width = gDead.width ∧ gDead.data.length = gDead.data.length) :=
  ⟨⟨by decide, (shape_invariants GameOfLife gDead).2.1 0 0 cL gDeadSet (by decide)⟩,
   ⟨by decide, (shape_invariants GameOfLife gDead).2.2.1 gDead (by decide)⟩,
   ⟨by decide, (shape_invariants GameOfLife gDead).2.2.2 2 gDead (by decide)⟩⟩

/-- Claim C8: confirmed. `step` is a pure function of the grid state: two
applications to equal states give equal results (no hidden randomness). -/
theorem step_deterministic (R : RuleSet C) (g1 g2 : Driver C) (h : g1 = g2) :
    Driver.step R g1 = Driver.step R g2 := by
  rw [h]

/-- Concrete instantiation of `step_deterministic` at the blinker. -/
theorem step_deterministic_witness :
    gVert = gVert
    ∧ Driver.step GameOfLife gVert = Driver.step GameOfLife gVert :=
  ⟨rfl, step_deterministic GameOfLife gVert gVert rfl⟩

/-- Claim C9: confirmed. `get_cell` and `set_cell` depend only on the flat
index `y * width + x`: coordinates with equal flat index are
indistinguishable, an in-range flat index returns the stored value there
(even for out-of-bounds coordinates such as `x >= width`, which wrap into
a later row), reading panics exactly when the flat index reaches the
storage length, and writing succeeds exactly when it does not. -/
theorem get_set_flat_index (g : Driver C) (v : C) (x y xp yp : Nat) :
    (y * g.width + x = yp * g.width + xp →
        Driver.get_cell g x y = Driver.get_cell g xp yp
        ∧ Driver.set_cell g x y v = Driver.set_cell g xp yp v)
    ∧ (∀ hlt : y * g.width + x < g.data.length,
        Driver.get_cell g x y = some (g.data.get ⟨y * g.width + x, hlt⟩))
    ∧ (Driver.get_cell g x y = none ↔ g.data.length ≤ y * g.width + x)
    ∧ ((Driver.set_cell g x y v).isSome ↔ y * g.width + x < g.data.length) := by
  refine ⟨?_, ?_, ?_, ?_⟩
  · intro h
    constructor
    · simp only [Driver.get_cell, Driver.get, h]
    · simp only [Driver.set_cell, Driver.set, h]
  · intro hlt
    simp only [Driver.get_cell, Driver.get]
    exact List.get?_eq_get hlt
  · simp only [Driver.get_cell, Driver.get]
    exact List.get?_eq_none
  · simp only [Driver.set_cell, Driver.set]
    split
    · rename_i hlt
      simp [hlt]
    · rename_i hlt
      simp [hlt]

/-- A 3x3 grid whose only live cell is (0,1), at flat index 3. -/
def gWrap : Driver BinaryCell :=
  ⟨[cD, cD, cD, cL, cD, cD, cD, cD, cD], 3⟩

/-- Concrete instantiation of `get_set_flat_index`: on a 3x3 grid, the
out-of-bounds coordinate (3,0) has flat index 3 and reads the cell stored
at (0,1). -/
theorem get_set_flat_index_witness :
    (0 * gWrap.width + 3 = 1 * gWrap.width + 0
      ∧ Driver.get_cell gWrap 3 0 = Driver.get_cell gWrap 0 1
      ∧ Driver.set_cell gWrap 3 0 cL = Driver.set_cell gWrap 0 1 cL)
    ∧ (0 * gWrap.width + 3 < gWrap.data.length
      ∧ Driver.get_cell gWrap 3 0 =
          some (gWrap.data.get ⟨0 * gWrap.width + 3, by decide⟩)) :=
  ⟨⟨by decide, (get_set_flat_index gWrap cL 3 0 0 1).1 (by decide)⟩,
   ⟨by decide, (get_set_flat_index gWrap cL 3 0 0 1).2.1 (by decide)⟩⟩

/-- Claim C10: confirmed. A grid constructed with zero width or zero
height has empty storage, and `step` and `step_many n` succeed on it for
every n, returning the grid unchanged. -/
theorem zero_sized_grid_inert (R : RuleSet C) (w h : Nat)
    (hz : w = 0 ∨ h = 0) :
    Driver.new_with R w h = ⟨[], w⟩
    ∧ Driver.step R (Driver.new_with R w h) = some (Driver.new_with R w h)
    ∧ ∀ n, Driver.step_many R (Driver.new_with R w h) n =
        some (Driver.new_with R w h) := by
  have hwh : w * h = 0 := by
    rcases hz with h0 | h0 <;> simp [h0]
  have hnew : Driver.new_with R w h = ⟨[], w⟩ := by
    simp [Driver.new_with, hwh]
  have hstep : Driver.step R (⟨[], w⟩ : Driver C) = some ⟨[], w⟩ := rfl
  refine ⟨hnew, ?_, ?_⟩
  · rw [hnew]
    exact hstep
  · intro n
    rw [hnew]
    induction n with
    | zero => rfl
    | succ n ih =>
      rw [step_many_some _ _ _ hstep n]
      exact ih

/-- Concrete instantiation of `zero_sized_grid_inert` at width 0, height 5. -/
theorem zero_sized_grid_inert_witness :
    ((0 : Nat) = 0 ∨ (5 : Nat) = 0)
    ∧ Driver.new_with GameOfLife 0 5 = ⟨[], 0⟩
    ∧ Driver.step GameOfLife (Driver.new_with GameOfLife 0 5) =
        some (Driver.new_with GameOfLife 0 5)
    ∧ Driver.step_many GameOfLife (Driver.new_with GameOfLife 0 5) 3 =
        some (Driver.new_with GameOfLife 0 5) :=
  ⟨Or.inl rfl,
   (zero_sized_grid_inert GameOfLife 0 5 (Or.inl rfl)).1,
   (zero_sized_grid_inert GameOfLife 0 5 (Or.inl rfl)).2.1,
   (zero_sized_grid_inert GameOfLife 0 5 (Or.inl rfl)).2.2 3⟩
